import Mathlib

/-!
Shallow embedding of `src/main.cpp` of diznq/transmitter: an FM-band
transmitter that self-calibrates its carrier frequency at boot.

The program is one control loop containing two independent state machines:
an ADC read state machine (`read_state`, cases 0..3) and a broadcast state
machine (`ready_state`, MEASURING = 2 / TESTING = 1 / BROADCASTING = 0).
The opcode buffer `opcodes` (80 slots) holds NOP words (0xBF00) with a
single return word (0x4770) at the active offset.

Modelling choices:
* Machine integers (`unsigned int`) are modelled as `Nat`; every value the
  program manipulates stays far below 2^32, so no wraparound is modelled.
* `float` arithmetic is modelled exactly over `Rat`.  The claims settled
  here concern loop ranges, scan order, state transitions and integer
  constants, none of which depend on float rounding; the concrete inputs
  used in counterexamples and witnesses keep margins that rounding at
  float precision could not bridge.
* The microsecond timer is an external collaborator; the program only takes
  differences `end - start` of two readings, so a run is parameterised by
  an environment `env : Nat -> Nat` giving the elapsed microseconds of the
  burst performed at each loop iteration.
* The ADC peripheral flags and conversion result are likewise an input
  script.
* The `measurements` array is modelled as `Nat -> Option Nat`, `none`
  marking a cell that was never written, so that reads of unrecorded cells
  are observable.  The C variable `freq` receiving the value computed at
  the MEASURING -> TESTING handoff (line 206) is modelled as `Option Rat`:
  `none` records that its defining read hit an unwritten cell.
* A division-checked variant of the evaluation pass (`evalPassChecked`,
  `achievedChecked`) returns `none` as soon as a division with zero
  denominator is reached; it is used to settle the division-by-zero claim.
-/

namespace Transmitter

/-- `MAX_OPCODES` from main.cpp line 18: capacity of the instruction buffer. -/
def MAX_OPCODES : ℕ := 80

/-- The no-op instruction word 0xBF00 (main.cpp line 65). -/
def NOP : ℕ := 0xBF00

/-- The return instruction word 0x4770 (BR LX, main.cpp line 90). -/
def RET : ℕ := 0x4770

/-- Broadcast state MEASURING (main.cpp line 22). -/
def MEASURING : ℕ := 2

/-- Broadcast state TESTING (main.cpp line 23). -/
def TESTING : ℕ := 1

/-- Broadcast state BROADCASTING (main.cpp line 24). -/
def BROADCASTING : ℕ := 0

/-- `measure_limit = MAX_OPCODES - 1` (main.cpp line 96). -/
def measure_limit : ℕ := MAX_OPCODES - 1

/-- `sample_rate = 22050` (main.cpp line 84). -/
def sample_rate : ℕ := 22050

/-- `desired = 558000.0f` (main.cpp line 92), the initial desired frequency. -/
def desired0 : ℚ := 558000

/-- The raw target frequency table (main.cpp lines 104-115), before the
half-sample-rate adjustment. -/
def rawFrequencies : List ℚ :=
  [531000, 540000, 549000, 558000, 567000, 576000, 585000, 594000,
   603000, 612000, 621000, 630000, 639000, 648000, 651000, 666000,
   675000, 684000, 693000, 702000, 711000, 720000, 729000, 738000,
   747000, 756000, 765000, 774000, 783000, 792000, 801000, 810000,
   819000, 828000, 837000, 846000, 855000, 864000, 873000, 882000,
   891000, 900000, 909000, 918000, 927000, 936000, 945000, 954000,
   963000, 972000, 981000, 981000, 989000, 990000, 999000, 1008000,
   1017000, 1026000, 1035000, 1044000, 1053000, 1062000, 1071000, 1080000,
   1089000, 1098000, 1107000, 1115000, 1116000, 1125000, 1134000, 1143000,
   1152000, 1161000, 1170000, 1179000, 1188000, 1197000, 1206000, 1215000]

/-- `frequencies_n` (main.cpp line 117): number of table entries. -/
def frequencies_n : ℕ := rawFrequencies.length

/-- The adjusted target table after the loop of main.cpp lines 121-123:
each entry shifted down by `sample_rate / 2.0f`. -/
def frequencies : List ℚ := rawFrequencies.map (fun f => f - (sample_rate : ℚ) / 2)

/-- The (best_diff, best_index, best_frequency) accumulator of the
evaluation pass (main.cpp lines 87-88 and 92-93). -/
structure Best where
  best_diff : ℚ
  best_index : ℕ
  best_frequency : ℕ
  deriving DecidableEq, Repr

/-- Initial accumulator: `best_diff = desired = 558000`, `best_index = 0`,
`best_frequency = 0` (main.cpp lines 87-88, 93). -/
def initBest : Best := { best_diff := desired0, best_index := 0, best_frequency := 0 }

/-- Achieved frequency of offset `i`: `periods * 1000000.0f / measurements[i]`
with `periods = 100000` during the evaluation pass (main.cpp line 192). -/
def freqAt (ms : ℕ → ℕ) (i : ℕ) : ℚ := (100000 : ℚ) * 1000000 / (ms i : ℚ)

/-- The absolute value used by `abs(...)` (main.cpp line 193), written out
so that it evaluates by kernel reduction. -/
def absQ (x : ℚ) : ℚ := if x < 0 then -x else x

/-- `diff = abs(freq - frequencies[j])` (main.cpp line 193). -/
def diffAt (ms : ℕ → ℕ) (i j : ℕ) : ℚ := absQ (freqAt ms i - frequencies.getD j 0)

/-- One body of the inner evaluation loop (main.cpp lines 192-198): update
the accumulator when the candidate diff is strictly smaller. -/
def evalStep (ms : ℕ → ℕ) (b : Best) (i j : ℕ) : Best :=
  if diffAt ms i j < b.best_diff then
    { best_diff := diffAt ms i j, best_index := i, best_frequency := j }
  else b

/-- The inner loop of the evaluation pass (main.cpp line 185): iterate
`j = 0, 1, ..., n-1` in ascending order at fixed offset `i`. -/
def innerLoop (ms : ℕ → ℕ) (i : ℕ) (b : Best) : ℕ → Best
  | 0 => b
  | n + 1 => evalStep ms (innerLoop ms i b n) i n

/-- The outer loop of the evaluation pass (main.cpp line 184): iterate
offsets `i = 0, 1, ..., m-1` in ascending order, the inner loop running
over all `frequencies_n` targets. -/
def outerLoop (ms : ℕ → ℕ) (b : Best) : ℕ → Best
  | 0 => b
  | m + 1 => innerLoop ms m (outerLoop ms b m) frequencies_n

/-- The full evaluation pass (main.cpp lines 184-200): the outer loop runs
`for (i = 0; i < measure_limit - 1; i++)` from the accumulator seed. -/
def evalPass (ms : ℕ → ℕ) : Best := outerLoop ms initBest (measure_limit - 1)

/-- Scan order of the evaluation pass: offset ascending, then target
ascending (outer loop over `i`, inner loop over `j`). -/
def scanLt (p q : ℕ × ℕ) : Prop := p.1 < q.1 ∨ (p.1 = q.1 ∧ p.2 < q.2)

instance : DecidablePred (fun pq : (ℕ × ℕ) × (ℕ × ℕ) => scanLt pq.1 pq.2) :=
  fun _ => by unfold scanLt; infer_instance

/-- Division-checked inner loop: identical to `innerLoop` except that the
division of main.cpp line 192 is flagged, returning `none` as soon as it is
reached with a zero denominator. -/
def innerChecked (ms : ℕ → ℕ) (i : ℕ) (b : Best) : ℕ → Option Best
  | 0 => some b
  | n + 1 => (innerChecked ms i b n).bind
      (fun b' => if ms i = 0 then none else some (evalStep ms b' i n))

/-- Division-checked outer loop, mirroring `outerLoop`. -/
def outerChecked (ms : ℕ → ℕ) (b : Best) : ℕ → Option Best
  | 0 => some b
  | m + 1 => (outerChecked ms b m).bind (fun b' => innerChecked ms m b' frequencies_n)

/-- Division-checked evaluation pass: `none` exactly when the pass reaches
an achieved-frequency division with zero denominator. -/
def evalPassChecked (ms : ℕ → ℕ) : Option Best :=
  outerChecked ms initBest (measure_limit - 1)

/-- Division-checked achieved frequency `periods * 1000000.0f / elapsed`
(main.cpp line 224): `none` when the elapsed time is zero. -/
def achievedChecked (periods elapsed : ℕ) : Option ℚ :=
  if elapsed = 0 then none else some ((periods : ℚ) * 1000000 / (elapsed : ℚ))

/-- The C cast `(int)` on a nonnegative-or-negative rational: truncation
toward zero. -/
def cIntOfQ (q : ℚ) : ℤ := if 0 ≤ q then ⌊q⌋ else -⌊-q⌋

/-- `periods = (int)(0.5f * freq / sample_rate)` (main.cpp line 225). -/
def tuned_periods (freq sr : ℚ) : ℤ := cIntOfQ (1 / 2 * freq / sr)

/-- State of the whole broadcast controller between two loop iterations. -/
@[ext]
structure MachState where
  ready_state : ℕ
  index : ℕ
  periods : ℕ
  opcodes : ℕ → ℕ
  measurements : ℕ → Option ℕ
  best : Best
  desiredCur : ℚ
  freqReg : Option ℚ

/-- Initial state after main.cpp lines 58-128: all-NOP buffer with the
return word at slot 0, `index = 0`, `periods = 100000`, state MEASURING,
no measurement recorded, `freq = 0.0f`. -/
def initState : MachState :=
  { ready_state := MEASURING
    index := 0
    periods := 100000
    opcodes := fun k => if k = 0 then RET else NOP
    measurements := fun _ => none
    best := initBest
    desiredCur := desired0
    freqReg := some 0 }

/-- Recording `measurements[index] = end - start` (main.cpp line 175). -/
def measWrite (e : ℕ) (s : MachState) : ℕ → Option ℕ :=
  fun k => if k = s.index then some e else s.measurements k

/-- The evaluation pass as invoked at the handoff (main.cpp lines 184-200):
it reads the measurement array just written. -/
def measBest (e : ℕ) (s : MachState) : Best :=
  evalPass (fun k => (measWrite e s k).getD 0)

/-- The MEASURING arm of the broadcast switch (main.cpp lines 163-214):
record `measurements[index] = e` (line 175), retire the return word at
`index` and set it at `index + 1` (lines 176-177); when the new index
reaches `measure_limit` (line 181), run the evaluation pass, read
`measurements[index]` into `freq` (line 206), set `periods = 250000`
(line 207), move the return word to `best_index` (lines 208-209), load
`desired = frequencies[best_frequency]` (line 210) and go to TESTING. -/
def measStep (e : ℕ) (s : MachState) : MachState :=
  if s.index + 1 = measure_limit then
    { ready_state := TESTING
      index := (measBest e s).best_index
      periods := 250000
      opcodes := fun k =>
        if k = (measBest e s).best_index then RET
        else if k = s.index + 1 then NOP
        else if k = s.index + 1 then RET
        else if k = s.index then NOP
        else s.opcodes k
      measurements := measWrite e s
      best := measBest e s
      desiredCur := frequencies.getD (measBest e s).best_frequency 0
      freqReg := (measWrite e s (s.index + 1)).map (fun m => (100000 : ℚ) * 1000000 / (m : ℚ)) }
  else
    { s with
        index := s.index + 1
        opcodes := fun k => if k = s.index + 1 then RET else if k = s.index then NOP else s.opcodes k
        measurements := measWrite e s }

/-- The TESTING arm (main.cpp lines 215-237): compute the achieved
frequency of the timed burst (line 224), derive the tuned repeat count
(line 225), go to BROADCASTING. -/
def testStep (e : ℕ) (s : MachState) : MachState :=
  { s with
      ready_state := BROADCASTING
      periods := (tuned_periods ((s.periods : ℚ) * 1000000 / (e : ℚ)) (sample_rate : ℚ)).toNat
      freqReg := some ((s.periods : ℚ) * 1000000 / (e : ℚ)) }

/-- One iteration of the broadcast state machine (main.cpp lines 159-244),
given the elapsed microseconds `e` of the burst this iteration performs:
dispatch on `ready_state`; the BROADCASTING arm (lines 238-243) only
transmits and changes no state. -/
def stepB (e : ℕ) (s : MachState) : MachState :=
  if s.ready_state = MEASURING then measStep e s
  else if s.ready_state = TESTING then testStep e s
  else s

/-- The run of the broadcast controller under elapsed-time environment
`env`: `run env n` is the state at the n-th loop iteration boundary. -/
def run (env : ℕ → ℕ) : ℕ → MachState
  | 0 => initState
  | n + 1 => stepB (env n) (run env n)

/-- The measurement table the evaluation pass sees on the run under `env`:
entry `k` was recorded as `env k` for `k < measure_limit`, and reading any
other cell of the scratch array yields its unrecorded content. -/
def msOf (env : ℕ → ℕ) : ℕ → ℕ := fun k => if k < measure_limit then env k else 0

/-- The achieved frequency computed in TESTING (main.cpp line 224) on the
run under `env`: `periods = 250000` divided by the elapsed time of the
TESTING burst (iteration `measure_limit`). -/
def testF (env : ℕ → ℕ) : ℚ := (250000 : ℚ) * 1000000 / (env measure_limit : ℚ)

/-- The active offset (the slot holding the return word) at the n-th loop
iteration boundary: it is `n` throughout measurement and the evaluation
pass's winning offset from the handoff on. -/
def aIdx (env : ℕ → ℕ) (n : ℕ) : ℕ :=
  if n < measure_limit then n else (evalPass (msOf env)).best_index

/-- Explicit form of the state during the measuring phase (before the
handoff): used to characterise `run`. -/
def mstateM (env : ℕ → ℕ) (n : ℕ) : MachState :=
  { ready_state := MEASURING
    index := n
    periods := 100000
    opcodes := fun k => if k = n then RET else NOP
    measurements := fun k => if k < n then some (env k) else none
    best := initBest
    desiredCur := desired0
    freqReg := some 0 }

/-- Explicit form of the state right after the MEASURING -> TESTING
handoff. -/
def hstate (env : ℕ → ℕ) : MachState :=
  { ready_state := TESTING
    index := (evalPass (msOf env)).best_index
    periods := 250000
    opcodes := fun k => if k = (evalPass (msOf env)).best_index then RET else NOP
    measurements := fun k => if k < measure_limit then some (env k) else none
    best := evalPass (msOf env)
    desiredCur := frequencies.getD (evalPass (msOf env)).best_frequency 0
    freqReg := none }

/-- Explicit form of the terminal BROADCASTING state. -/
def bstate (env : ℕ → ℕ) : MachState :=
  { hstate env with
      ready_state := BROADCASTING
      periods := (tuned_periods (testF env) (sample_rate : ℚ)).toNat
      freqReg := some (testF env) }

/-- Input to one step of the ADC state machine: the polled peripheral
flags (`SC2 & ADACT`, `SC1 & COCO`) and the conversion result register. -/
structure AdcIn where
  active : Bool
  complete : Bool
  value : ℕ
  deriving DecidableEq, Repr

/-- State of the ADC read state machine: `read_state` (0..3) and the last
latched value `adc_value` (main.cpp lines 80, 83). -/
structure AdcState where
  read_state : ℕ
  adc_value : ℕ
  deriving DecidableEq, Repr

/-- One iteration of the ADC state machine (main.cpp lines 137-154):
state 0 starts a conversion, state 1 waits for the activity flag to clear,
state 2 waits for conversion-complete, state 3 latches the value. -/
def adcStep (inp : AdcIn) (s : AdcState) : AdcState :=
  if s.read_state = 0 then { s with read_state := 1 }
  else if s.read_state = 1 then (if inp.active then s else { s with read_state := 2 })
  else if s.read_state = 2 then (if inp.complete then { s with read_state := 3 } else s)
  else if s.read_state = 3 then { read_state := 0, adc_value := inp.value }
  else s

/-- The successor state in the ADC machine's cyclic order
START_CONVERSION -> WAIT_ACTIVE -> WAIT_COMPLETE -> LATCH_VALUE -> ... -/
def nextRS (n : ℕ) : ℕ :=
  if n = 0 then 1 else if n = 1 then 2 else if n = 2 then 3 else if n = 3 then 0 else n

/-- The run of the ADC state machine under flag script `script`, from
`read_state = 0`, `adc_value = 0` (main.cpp lines 80, 83). -/
def adcRun (script : ℕ → AdcIn) : ℕ → AdcState
  | 0 => { read_state := 0, adc_value := 0 }
  | n + 1 => adcStep (script n) (adcRun script n)

/-- A synthetic measurement table used as concrete input: every offset
below 78 takes 1000000 us per burst, while offset 78 alone lands almost
exactly on the lowest adjusted target frequency. -/
def exMeas : ℕ → ℕ := fun k => if k = 78 then 192317 else 1000000

/-- A constant peripheral script for exercising the ADC machine: activity
flag clear, conversion-complete flag set, conversion result 7. -/
def cscript : ℕ → AdcIn := fun _ => { active := false, complete := true, value := 7 }

end Transmitter

namespace Transmitter

/-! ### Evaluation pass: characterisation of the strict-improvement fold -/

lemma evalStep_lt {ms : ℕ → ℕ} {i j : ℕ} {b : Best} (h : diffAt ms i j < b.best_diff) :
    evalStep ms b i j = ⟨diffAt ms i j, i, j⟩ := by
  rw [evalStep, if_pos h]

lemma evalStep_ge {ms : ℕ → ℕ} {i j : ℕ} {b : Best} (h : ¬ diffAt ms i j < b.best_diff) :
    evalStep ms b i j = b := by
  rw [evalStep, if_neg h]

/-- The inner loop either leaves the accumulator untouched (no candidate of
row `i` beats it) or returns the first-encountered minimal candidate of the
row that strictly beats the accumulator. -/
lemma inner_char (ms : ℕ → ℕ) (i : ℕ) (b : Best) (n : ℕ) :
    (innerLoop ms i b n = b ∧ ∀ j, j < n → b.best_diff ≤ diffAt ms i j)
    ∨ (∃ j, j < n ∧ innerLoop ms i b n = ⟨diffAt ms i j, i, j⟩ ∧
        diffAt ms i j < b.best_diff ∧
        (∀ j', j' < j → diffAt ms i j < diffAt ms i j') ∧
        (∀ j', j' < n → diffAt ms i j ≤ diffAt ms i j')) := by
  induction n with
  | zero => exact Or.inl ⟨rfl, fun j hj => absurd hj (Nat.not_lt_zero j)⟩
  | succ n ih =>
    rcases ih with ⟨heq, hbound⟩ | ⟨j, hj, heq, hlt, hfirst, hmin⟩
    · by_cases h : diffAt ms i n < b.best_diff
      · refine Or.inr ⟨n, Nat.lt_succ_self n, ?_, h, ?_, ?_⟩
        · show evalStep ms (innerLoop ms i b n) i n = _
          rw [heq]; exact evalStep_lt h
        · intro j' hj'
          exact lt_of_lt_of_le h (hbound j' hj')
        · intro j' hj'
          rcases Nat.lt_succ_iff_lt_or_eq.mp hj' with h' | h'
          · exact le_of_lt (lt_of_lt_of_le h (hbound j' h'))
          · subst h'; exact le_refl _
      · refine Or.inl ⟨?_, ?_⟩
        · show evalStep ms (innerLoop ms i b n) i n = b
          rw [heq]; exact evalStep_ge h
        · intro j' hj'
          rcases Nat.lt_succ_iff_lt_or_eq.mp hj' with h' | h'
          · exact hbound j' h'
          · subst h'; exact not_lt.mp h
    · by_cases h : diffAt ms i n < diffAt ms i j
      · refine Or.inr ⟨n, Nat.lt_succ_self n, ?_, lt_trans h hlt, ?_, ?_⟩
        · show evalStep ms (innerLoop ms i b n) i n = _
          rw [heq]; exact evalStep_lt h
        · intro j' hj'
          exact lt_of_lt_of_le h (hmin j' hj')
        · intro j' hj'
          rcases Nat.lt_succ_iff_lt_or_eq.mp hj' with h' | h'
          · exact le_of_lt (lt_of_lt_of_le h (hmin j' h'))
          · subst h'; exact le_refl _
      · refine Or.inr ⟨j, Nat.lt_succ_of_lt hj, ?_, hlt, hfirst, ?_⟩
        · show evalStep ms (innerLoop ms i b n) i n = _
          rw [heq]; exact evalStep_ge h
        · intro j' hj'
          rcases Nat.lt_succ_iff_lt_or_eq.mp hj' with h' | h'
          · exact hmin j' h'
          · subst h'; exact not_lt.mp h

end Transmitter

namespace Transmitter

/-- The outer loop (hence the whole evaluation pass) either leaves the
accumulator untouched — every scanned candidate fails to strictly beat the
seed — or returns the first-encountered (offset ascending, then target
ascending) candidate attaining the minimal diff over the scanned range. -/
lemma outer_char (ms : ℕ → ℕ) (b : Best) (m : ℕ) :
    (outerLoop ms b m = b ∧ ∀ i, i < m → ∀ j, j < frequencies_n → b.best_diff ≤ diffAt ms i j)
    ∨ (∃ i, i < m ∧ ∃ j, j < frequencies_n ∧ outerLoop ms b m = ⟨diffAt ms i j, i, j⟩ ∧
        diffAt ms i j < b.best_diff ∧
        (∀ i' j', i' < m → j' < frequencies_n → scanLt (i', j') (i, j) →
          diffAt ms i j < diffAt ms i' j') ∧
        (∀ i', i' < m → ∀ j', j' < frequencies_n → diffAt ms i j ≤ diffAt ms i' j')) := by
  induction m with
  | zero => exact Or.inl ⟨rfl, fun i hi => absurd hi (Nat.not_lt_zero i)⟩
  | succ m ih =>
    rcases ih with ⟨hOeq, hOb⟩ | ⟨i, hi, j, hj, hOeq, hOlt, hOfirst, hOmin⟩
    · rcases inner_char ms m (outerLoop ms b m) frequencies_n with
        ⟨hIeq, hIb⟩ | ⟨j, hj, hIeq, hIlt, hIfirst, hImin⟩
      · refine Or.inl ⟨?_, ?_⟩
        · show innerLoop ms m (outerLoop ms b m) frequencies_n = b
          rw [hIeq, hOeq]
        · intro i' hi' j' hj'
          rcases Nat.lt_succ_iff_lt_or_eq.mp hi' with h' | h'
          · exact hOb i' h' j' hj'
          · subst h'
            have := hIb j' hj'
            rwa [hOeq] at this
      · rw [hOeq] at hIlt
        refine Or.inr ⟨m, Nat.lt_succ_self m, j, hj, ?_, hIlt, ?_, ?_⟩
        · exact hIeq
        · intro i' j' hi' hj' hsc
          simp only [scanLt] at hsc
          rcases hsc with h' | ⟨h', hjj⟩
          · exact lt_of_lt_of_le hIlt (hOb i' h' j' hj')
          · subst h'; exact hIfirst j' hjj
        · intro i' hi' j' hj'
          rcases Nat.lt_succ_iff_lt_or_eq.mp hi' with h' | h'
          · exact le_of_lt (lt_of_lt_of_le hIlt (hOb i' h' j' hj'))
          · subst h'; exact hImin j' hj'
    · rcases inner_char ms m (outerLoop ms b m) frequencies_n with
        ⟨hIeq, hIb⟩ | ⟨js, hjs, hIeq, hIlt, hIfirst, hImin⟩
      · refine Or.inr ⟨i, Nat.lt_succ_of_lt hi, j, hj, ?_, hOlt, ?_, ?_⟩
        · show innerLoop ms m (outerLoop ms b m) frequencies_n = _
          rw [hIeq, hOeq]
        · intro i' j' hi' hj' hsc
          rcases Nat.lt_succ_iff_lt_or_eq.mp hi' with h' | h'
          · exact hOfirst i' j' h' hj' hsc
          · subst h'
            simp only [scanLt] at hsc
            rcases hsc with h' | ⟨h', hjj⟩
            · exact absurd h' (by omega)
            · exact absurd h' (by omega)
        · intro i' hi' j' hj'
          rcases Nat.lt_succ_iff_lt_or_eq.mp hi' with h' | h'
          · exact hOmin i' h' j' hj'
          · subst h'
            have := hIb j' hj'
            rwa [hOeq] at this
      · rw [hOeq] at hIlt
        have hIlt' : diffAt ms m js < diffAt ms i j := hIlt
        refine Or.inr ⟨m, Nat.lt_succ_self m, js, hjs, hIeq, lt_trans hIlt' hOlt, ?_, ?_⟩
        · intro i' j' hi' hj' hsc
          rcases Nat.lt_succ_iff_lt_or_eq.mp hi' with h' | h'
          · exact lt_of_lt_of_le hIlt' (hOmin i' h' j' hj')
          · subst h'
            simp only [scanLt] at hsc
            rcases hsc with h' | ⟨h', hjj⟩
            · exact absurd h' (lt_irrefl i')
            · exact hIfirst j' hjj
        · intro i' hi' j' hj'
          rcases Nat.lt_succ_iff_lt_or_eq.mp hi' with h' | h'
          · exact le_of_lt (lt_of_lt_of_le hIlt' (hOmin i' h' j' hj'))
          · subst h'; exact hImin j' hj'

end Transmitter

namespace Transmitter

/-- The per-candidate diff only reads the measurement cell of its own
offset. -/
lemma diffAt_congr {ms1 ms2 : ℕ → ℕ} {i : ℕ} (h : ms1 i = ms2 i) (j : ℕ) :
    diffAt ms1 i j = diffAt ms2 i j := by
  rw [diffAt, diffAt, freqAt, freqAt, h]

lemma innerLoop_congr {ms1 ms2 : ℕ → ℕ} {i : ℕ} (h : ms1 i = ms2 i) (b : Best) (n : ℕ) :
    innerLoop ms1 i b n = innerLoop ms2 i b n := by
  induction n with
  | zero => rfl
  | succ n ih => rw [innerLoop, innerLoop, ih, evalStep, evalStep, diffAt_congr h n]

/-- The outer loop reads only the measurement cells of the offsets it
scans. -/
lemma outerLoop_congr {ms1 ms2 : ℕ → ℕ} (b : Best) (m : ℕ)
    (h : ∀ i, i < m → ms1 i = ms2 i) : outerLoop ms1 b m = outerLoop ms2 b m := by
  induction m with
  | zero => rfl
  | succ m ih =>
    rw [outerLoop, outerLoop, ih (fun i hi => h i (Nat.lt_succ_of_lt hi)),
      innerLoop_congr (h m (Nat.lt_succ_self m))]

/-- The evaluation pass reads only the measurement cells of offsets in
`[0, measure_limit - 1)`. -/
lemma evalPass_congr {ms1 ms2 : ℕ → ℕ}
    (h : ∀ i, i < measure_limit - 1 → ms1 i = ms2 i) : evalPass ms1 = evalPass ms2 :=
  outerLoop_congr initBest (measure_limit - 1) h

/-- The winning offset of the evaluation pass is always a valid buffer
slot. -/
lemma evalPass_best_index_lt (ms : ℕ → ℕ) : (evalPass ms).best_index < MAX_OPCODES := by
  rcases outer_char ms initBest (measure_limit - 1) with ⟨heq, _⟩ | ⟨i, hi, j, hj, heq, _⟩
  · rw [evalPass, heq]; decide
  · rw [evalPass, heq]
    have h1 : measure_limit - 1 = 78 := rfl
    have h2 : MAX_OPCODES = 80 := rfl
    show i < MAX_OPCODES
    rw [h1] at hi
    rw [h2]
    omega

/-- The number of target frequencies is positive. -/
lemma frequencies_n_pos : 0 < frequencies_n := by decide

/-- The division-checked inner loop faults exactly when its offset's
measurement is zero and at least one candidate is processed. -/
lemma innerChecked_eq (ms : ℕ → ℕ) (i : ℕ) (b : Best) (n : ℕ) :
    innerChecked ms i b n =
      if ms i = 0 ∧ 0 < n then none else some (innerLoop ms i b n) := by
  induction n with
  | zero => simp [innerChecked, innerLoop]
  | succ n ih =>
    rw [innerChecked, ih]
    by_cases h : ms i = 0
    · rcases Nat.eq_zero_or_pos n with h0 | h0
      · subst h0; simp [h, innerLoop]
      · simp [h, h0]
    · simp [h, innerLoop]

/-- The division-checked outer loop faults exactly when some scanned
offset's measurement is zero. -/
lemma outerChecked_eq (ms : ℕ → ℕ) (b : Best) (m : ℕ) :
    outerChecked ms b m =
      if ∃ i, i < m ∧ ms i = 0 then none else some (outerLoop ms b m) := by
  induction m with
  | zero => simp [outerChecked, outerLoop]
  | succ m ih =>
    rw [outerChecked, ih]
    by_cases hz : ∃ i, i < m ∧ ms i = 0
    · rw [if_pos hz]
      obtain ⟨i, hi, h0⟩ := hz
      rw [if_pos ⟨i, Nat.lt_succ_of_lt hi, h0⟩]
      rfl
    · rw [if_neg hz]
      show innerChecked ms m (outerLoop ms b m) frequencies_n = _
      rw [innerChecked_eq]
      by_cases h0 : ms m = 0
      · rw [if_pos ⟨h0, frequencies_n_pos⟩, if_pos ⟨m, Nat.lt_succ_self m, h0⟩]
      · rw [if_neg (fun hc => h0 hc.1), if_neg ?_]
        · rfl
        · rintro ⟨i, hi, hz0⟩
          rcases Nat.lt_succ_iff_lt_or_eq.mp hi with h' | h'
          · exact hz ⟨i, h', hz0⟩
          · subst h'; exact h0 hz0

/-- The division-checked evaluation pass faults exactly when some scanned
measurement is zero. -/
lemma evalPassChecked_none_iff (ms : ℕ → ℕ) :
    evalPassChecked ms = none ↔ ∃ i, i < measure_limit - 1 ∧ ms i = 0 := by
  rw [evalPassChecked, outerChecked_eq]
  by_cases h : ∃ i, i < measure_limit - 1 ∧ ms i = 0
  · rw [if_pos h]; simpa using h
  · rw [if_neg h]; simpa using h

/-- When every scanned measurement is nonzero, the checked pass computes
exactly the unchecked pass. -/
lemma evalPassChecked_some (ms : ℕ → ℕ) (h : ∀ i, i < measure_limit - 1 → ms i ≠ 0) :
    evalPassChecked ms = some (evalPass ms) := by
  rw [evalPassChecked, outerChecked_eq, if_neg, evalPass]
  rintro ⟨i, hi, h0⟩
  exact h i hi h0

end Transmitter

namespace Transmitter

/-! ### Characterisation of the broadcast controller's run -/

/-- During the measuring phase the state at boundary `n` is: MEASURING,
index `n`, the return word at slot `n`, measurements recorded below `n`. -/
lemma run_measuring (env : ℕ → ℕ) :
    ∀ n, n < measure_limit → run env n = mstateM env n := by
  intro n
  induction n with
  | zero =>
    intro _
    show initState = mstateM env 0
    refine MachState.ext ?_ ?_ ?_ ?_ ?_ ?_ ?_ ?_
    · rfl
    · rfl
    · rfl
    · rfl
    · funext k
      show (none : Option ℕ) = if k < 0 then some (env k) else none
      rw [if_neg (Nat.not_lt_zero k)]
    · rfl
    · rfl
    · rfl
  | succ n ih =>
    intro hlt
    have hml : measure_limit = 79 := rfl
    have hn : n < measure_limit := Nat.lt_of_succ_lt hlt
    have hne : ¬ (n + 1 = measure_limit) := by rw [hml] at hlt ⊢; omega
    show stepB (env n) (run env n) = mstateM env (n + 1)
    rw [ih hn]
    refine MachState.ext ?_ ?_ ?_ ?_ ?_ ?_ ?_ ?_
    · simp [stepB, measStep, mstateM, MEASURING, hne]
    · simp [stepB, measStep, mstateM, MEASURING, hne]
    · simp [stepB, measStep, mstateM, MEASURING, hne]
    · funext k
      simp only [stepB, measStep, mstateM, MEASURING, hne, if_false, if_true, reduceIte,
        eq_self_iff_true]
      by_cases h1 : k = n + 1
      · simp [h1]
      · by_cases h2 : k = n
        · simp [h1, h2]
        · simp [h1, h2]
    · funext k
      simp only [stepB, measStep, measWrite, mstateM, MEASURING, hne, if_false, if_true,
        reduceIte, eq_self_iff_true]
      by_cases h1 : k = n
      · simp [h1]
      · by_cases h2 : k < n
        · simp [h1, h2, Nat.lt_succ_of_lt h2]
        · have h3 : ¬ k < n + 1 := by omega
          simp [h1, h2, h3]
    · simp [stepB, measStep, mstateM, MEASURING, hne]
    · simp [stepB, measStep, mstateM, MEASURING, hne]
    · simp [stepB, measStep, mstateM, MEASURING, hne]

end Transmitter

namespace Transmitter

lemma stepB_handoff (e : ℕ) (s : MachState) (h : s.ready_state = MEASURING)
    (h2 : s.index + 1 = measure_limit) :
    stepB e s =
      { ready_state := TESTING
        index := (measBest e s).best_index
        periods := 250000
        opcodes := fun k =>
          if k = (measBest e s).best_index then RET
          else if k = s.index + 1 then NOP
          else if k = s.index + 1 then RET
          else if k = s.index then NOP
          else s.opcodes k
        measurements := measWrite e s
        best := measBest e s
        desiredCur := frequencies.getD (measBest e s).best_frequency 0
        freqReg := (measWrite e s (s.index + 1)).map
          (fun m => (100000 : ℚ) * 1000000 / (m : ℚ)) } := by
  unfold stepB measStep
  rw [if_pos h, if_pos h2]

lemma stepB_testing (e : ℕ) (s : MachState) (h : s.ready_state = TESTING) :
    stepB e s =
      { s with
          ready_state := BROADCASTING
          periods := (tuned_periods ((s.periods : ℚ) * 1000000 / (e : ℚ)) (sample_rate : ℚ)).toNat
          freqReg := some ((s.periods : ℚ) * 1000000 / (e : ℚ)) } := by
  unfold stepB testStep
  rw [if_neg (by rw [h]; decide), if_pos h]

lemma stepB_broadcast (e : ℕ) (s : MachState) (h : s.ready_state = BROADCASTING) :
    stepB e s = s := by
  unfold stepB
  rw [if_neg (by rw [h]; decide), if_neg (by rw [h]; decide)]

/-- The measurement array written by the final measuring iteration holds
exactly the elapsed times of iterations `0, ..., measure_limit - 1`. -/
lemma measWrite_handoff (env : ℕ → ℕ) :
    measWrite (env 78) (mstateM env 78) =
      fun k => if k < measure_limit then some (env k) else none := by
  funext k
  have hml : measure_limit = 79 := rfl
  simp only [measWrite, mstateM, hml]
  by_cases h1 : k = 78
  · simp [h1]
  · by_cases h2 : k < 78
    · have h3 : k < 79 := by omega
      simp [h1, h2, h3]
    · have h3 : ¬ k < 79 := by omega
      simp [h1, h2, h3]

/-- The evaluation pass invoked at the handoff computes `evalPass` on the
recorded elapsed times. -/
lemma measBest_handoff (env : ℕ → ℕ) :
    measBest (env 78) (mstateM env 78) = evalPass (msOf env) := by
  rw [measBest, measWrite_handoff]
  congr 1
  funext k
  by_cases h : k < measure_limit
  · simp [h, msOf]
  · simp [h, msOf]

/-- The state at boundary `measure_limit` — right after the handoff. -/
lemma run_handoff (env : ℕ → ℕ) : run env measure_limit = hstate env := by
  have h79 : measure_limit = 78 + 1 := rfl
  have hrun : run env measure_limit = stepB (env 78) (run env 78) := by rw [h79]; rfl
  rw [hrun, run_measuring env 78 (by rw [h79]; omega),
    stepB_handoff (env 78) (mstateM env 78) rfl rfl]
  refine MachState.ext ?_ ?_ ?_ ?_ ?_ ?_ ?_ ?_
  · rfl
  · show (measBest (env 78) (mstateM env 78)).best_index = (hstate env).index
    rw [measBest_handoff]
    rfl
  · rfl
  · funext k
    show (if k = (measBest (env 78) (mstateM env 78)).best_index then RET
      else if k = (mstateM env 78).index + 1 then NOP
      else if k = (mstateM env 78).index + 1 then RET
      else if k = (mstateM env 78).index then NOP
      else (mstateM env 78).opcodes k) = (hstate env).opcodes k
    rw [measBest_handoff]
    show (if k = (evalPass (msOf env)).best_index then RET
      else if k = 79 then NOP
      else if k = 79 then RET
      else if k = 78 then NOP
      else if k = 78 then RET else NOP) =
      (if k = (evalPass (msOf env)).best_index then RET else NOP)
    by_cases h1 : k = (evalPass (msOf env)).best_index
    · rw [if_pos h1, if_pos h1]
    · rw [if_neg h1, if_neg h1]
      by_cases h2 : k = 79
      · rw [if_pos h2]
      · rw [if_neg h2, if_neg h2]
        by_cases h3 : k = 78
        · rw [if_pos h3]
        · rw [if_neg h3, if_neg h3]
  · show measWrite (env 78) (mstateM env 78) = (hstate env).measurements
    rw [measWrite_handoff]
    rfl
  · show measBest (env 78) (mstateM env 78) = (hstate env).best
    rw [measBest_handoff]
    rfl
  · show frequencies.getD (measBest (env 78) (mstateM env 78)).best_frequency 0 = (hstate env).desiredCur
    rw [measBest_handoff]
    rfl
  · show (measWrite (env 78) (mstateM env 78) ((mstateM env 78).index + 1)).map
        (fun m => (100000 : ℚ) * 1000000 / (m : ℚ)) = (hstate env).freqReg
    rw [measWrite_handoff]
    show ((if 79 < measure_limit then some (env 79) else none).map
        (fun m => (100000 : ℚ) * 1000000 / (m : ℚ))) = none
    rw [if_neg (by decide)]
    rfl

/-- The state at boundary `measure_limit + 1` — right after the TESTING
iteration. -/
lemma run_testing (env : ℕ → ℕ) : run env (measure_limit + 1) = bstate env := by
  have hrun : run env (measure_limit + 1) = stepB (env measure_limit) (run env measure_limit) := rfl
  rw [hrun, run_handoff, stepB_testing _ _ rfl]
  simp [bstate, testF, hstate]

/-- BROADCASTING is terminal: every later boundary has the same state. -/
lemma run_broadcast (env : ℕ → ℕ) (k : ℕ) :
    run env (measure_limit + 1 + k) = bstate env := by
  induction k with
  | zero => exact run_testing env
  | succ k ih =>
    have hrun : run env (measure_limit + 1 + (k + 1)) =
        stepB (env (measure_limit + 1 + k)) (run env (measure_limit + 1 + k)) := rfl
    rw [hrun, ih, stepB_broadcast _ _ rfl]

end Transmitter

namespace Transmitter

/-! ### ADC state machine lemmas -/

/-- Each ADC iteration either stays put or advances to the cyclic
successor state. -/
lemma adcStep_cases (inp : AdcIn) (s : AdcState) :
    adcStep inp s = s ∨ (adcStep inp s).read_state = nextRS s.read_state := by
  by_cases h0 : s.read_state = 0
  · right; simp [adcStep, nextRS, h0]
  · by_cases h1 : s.read_state = 1
    · by_cases ha : inp.active
      · left; simp [adcStep, h0, h1, ha]
      · right; simp [adcStep, nextRS, h0, h1, ha]
    · by_cases h2 : s.read_state = 2
      · by_cases hc : inp.complete
        · right; simp [adcStep, nextRS, h0, h1, h2, hc]
        · left; simp [adcStep, h0, h1, h2, hc]
      · by_cases h3 : s.read_state = 3
        · right; simp [adcStep, nextRS, h0, h1, h2, h3]
        · left; simp [adcStep, h0, h1, h2, h3]

/-- Outside LATCH_VALUE the latched value is untouched. -/
lemma adcStep_value (inp : AdcIn) (s : AdcState) (h : s.read_state ≠ 3) :
    (adcStep inp s).adc_value = s.adc_value := by
  by_cases h0 : s.read_state = 0
  · simp [adcStep, h0]
  · by_cases h1 : s.read_state = 1
    · by_cases ha : inp.active <;> simp [adcStep, h0, h1, ha]
    · by_cases h2 : s.read_state = 2
      · by_cases hc : inp.complete <;> simp [adcStep, h0, h1, h2, hc]
      · simp [adcStep, h0, h1, h2, h]

/-- In LATCH_VALUE the conversion result is latched and the machine returns
to START_CONVERSION. -/
lemma adcStep_latch (inp : AdcIn) (s : AdcState) (h : s.read_state = 3) :
    (adcStep inp s).adc_value = inp.value ∧ (adcStep inp s).read_state = 0 := by
  constructor <;> simp [adcStep, h]

lemma nextRS_lt : ∀ x, x < 4 → nextRS x < 4 := by decide

/-- `read_state` stays in the four legal states. -/
lemma adc_rs_lt (script : ℕ → AdcIn) : ∀ n, (adcRun script n).read_state < 4 := by
  intro n
  induction n with
  | zero => show (0 : ℕ) < 4; decide
  | succ n ih =>
    show (adcStep (script n) (adcRun script n)).read_state < 4
    rcases adcStep_cases (script n) (adcRun script n) with h | h
    · rw [h]; exact ih
    · rw [h]; exact nextRS_lt _ ih

/-- Until the first pass through LATCH_VALUE the latched value stays at its
initial 0. -/
lemma adc_value_zero (script : ℕ → AdcIn) :
    ∀ n, (∀ m, m < n → (adcRun script m).read_state ≠ 3) →
      (adcRun script n).adc_value = 0 := by
  intro n
  induction n with
  | zero => intro _; rfl
  | succ n ih =>
    intro h
    show (adcStep (script n) (adcRun script n)).adc_value = 0
    rw [adcStep_value _ _ (h n (Nat.lt_succ_self n))]
    exact ih (fun m hm => h m (Nat.lt_succ_of_lt hm))

end Transmitter

namespace Transmitter

/-- `absQ` agrees with the mathematical absolute value. -/
lemma absQ_eq_abs (x : ℚ) : absQ x = |x| := by
  unfold absQ
  by_cases h : x < 0
  · rw [if_pos h, abs_of_neg h]
  · rw [if_neg h, abs_of_nonneg (not_lt.mp h)]

end Transmitter

namespace Transmitter

/-! ### Concrete facts about the target table and synthetic measurement
tables -/

/-- Every raw table entry lies between the first and the last entry. -/
lemma raw_bounds : ∀ r ∈ rawFrequencies, (531000 : ℚ) ≤ r ∧ r ≤ 1215000 := by decide

/-- Looking up a valid index of the adjusted table yields one of its
entries. -/
lemma freq_getD_mem {j : ℕ} (hj : j < frequencies_n) : frequencies.getD j 0 ∈ frequencies := by
  have hlen : j < frequencies.length := by
    rw [frequencies, List.length_map]
    exact hj
  rw [List.getD_eq_getElem frequencies 0 hlen]
  exact List.getElem_mem hlen

/-- Every adjusted table entry lies between 519975 and 1203975. -/
lemma freq_bounds : ∀ f ∈ frequencies, (519975 : ℚ) ≤ f ∧ f ≤ 1203975 := by
  intro f hf
  rw [frequencies] at hf
  obtain ⟨r, hr, rfl⟩ := List.mem_map.mp hf
  have hb := raw_bounds r hr
  have hs : (sample_rate : ℚ) / 2 = 11025 := by norm_num [sample_rate]
  rw [hs]
  exact ⟨by linarith [hb.1], by linarith [hb.2]⟩

/-- The first adjusted table entry. -/
lemma freq0 : frequencies.getD 0 0 = 519975 := by
  rw [frequencies, rawFrequencies]
  norm_num [sample_rate]

/-- Every candidate of `exMeas` scanned by the evaluation pass has diff at
least 419975 (the diff of the pair (0, 0)). -/
lemma exMeas_lower : ∀ i, i < measure_limit - 1 → ∀ j, j < frequencies_n →
    (419975 : ℚ) ≤ diffAt exMeas i j := by
  intro i hi j hj
  have h78 : measure_limit - 1 = 78 := rfl
  have hms : exMeas i = 1000000 := by
    unfold exMeas
    rw [if_neg (by omega : ¬ i = 78)]
  have hfa : freqAt exMeas i = 100000 := by
    rw [freqAt, hms]
    norm_num
  have hb := freq_bounds _ (freq_getD_mem hj)
  rw [diffAt, hfa]
  unfold absQ
  rw [if_pos (by linarith [hb.1] : (100000 : ℚ) - frequencies.getD j 0 < 0)]
  linarith [hb.1]

lemma exMeas_zero_zero : diffAt exMeas 0 0 = 419975 := by
  have hfa : freqAt exMeas 0 = 100000 := by
    rw [freqAt]
    norm_num [exMeas]
  rw [diffAt, hfa, freq0]
  unfold absQ
  rw [if_pos (by norm_num : (100000 : ℚ) - 519975 < 0)]
  norm_num

/-- The diff the code never looks at: offset 78 paired with the first
target is closer than anything the pass scans. -/
lemma exMeas_78_0 : diffAt exMeas 78 0 = 32075 / 192317 := by
  have hms : exMeas 78 = 192317 := by
    unfold exMeas
    rw [if_pos rfl]
  have hfa : freqAt exMeas 78 = 100000000000 / 192317 := by
    rw [freqAt, hms]
    norm_num
  rw [diffAt, hfa, freq0]
  unfold absQ
  rw [if_pos (by norm_num : (100000000000 : ℚ) / 192317 - 519975 < 0)]
  norm_num

/-- The pair (0, 0) beats the seed on the all-million table (and on
`exMeas`, which agrees with it below offset 78). -/
lemma const_mil_00 : diffAt (fun _ => 1000000) 0 0 < desired0 := by
  have hfa : freqAt (fun _ => 1000000) 0 = 100000 := by
    rw [freqAt]
    norm_num
  have hd : desired0 = 558000 := rfl
  rw [diffAt, hfa, freq0, hd]
  unfold absQ
  rw [if_pos (by norm_num : (100000 : ℚ) - 519975 < 0)]
  norm_num

/-- On `exMeas` the evaluation pass settles on the pair (0, 0), never
looking at offset 78. -/
lemma evalPass_exMeas : evalPass exMeas = ⟨419975, 0, 0⟩ := by
  rcases outer_char exMeas initBest (measure_limit - 1) with
    ⟨heq, hb⟩ | ⟨i, hi, j, hj, heq, hlt, hfirst, hmin⟩
  · exfalso
    have h00 := hb 0 (by decide) 0 (by decide)
    rw [exMeas_zero_zero] at h00
    have hn : ¬ ((558000 : ℚ) ≤ 419975) := by norm_num
    exact hn h00
  · have hij : i = 0 ∧ j = 0 := by
      by_contra hc
      have hsc : scanLt (0, 0) (i, j) := by
        show 0 < i ∨ (0 = i ∧ 0 < j)
        omega
      have hfi := hfirst 0 0 (by decide) (by decide) hsc
      rw [exMeas_zero_zero] at hfi
      have hge := exMeas_lower i hi j hj
      linarith
    obtain ⟨h0i, h0j⟩ := hij
    subst h0i
    subst h0j
    show outerLoop exMeas initBest (measure_limit - 1) = _
    rw [heq, exMeas_zero_zero]

/-- With every measurement equal to 1 microsecond, no candidate ever beats
the 558000 seed. -/
lemma const_one_no_beat : ∀ i, i < measure_limit - 1 → ∀ j, j < frequencies_n →
    ¬ diffAt (msOf fun _ => 1) i j < desired0 := by
  intro i hi j hj
  have h78 : measure_limit - 1 = 78 := rfl
  have h79 : measure_limit = 79 := rfl
  have hms : msOf (fun _ => 1) i = 1 := by
    unfold msOf
    rw [if_pos (by omega : i < measure_limit)]
  have hfa : freqAt (msOf fun _ => 1) i = 100000000000 := by
    rw [freqAt, hms]
    norm_num
  have hb := freq_bounds _ (freq_getD_mem hj)
  have hd : desired0 = 558000 := rfl
  rw [diffAt, hfa, hd]
  unfold absQ
  rw [if_neg (by linarith [hb.2] : ¬ (100000000000 : ℚ) - frequencies.getD j 0 < 0)]
  exact not_lt.mpr (by linarith [hb.2])

/-- Hence on the all-ones table the accumulator is never updated. -/
lemma evalPass_const_one : evalPass (msOf fun _ => 1) = initBest := by
  rcases outer_char (msOf fun _ => 1) initBest (measure_limit - 1) with
    ⟨heq, _⟩ | ⟨i, hi, j, hj, heq, hlt, _, _⟩
  · exact heq
  · exact absurd hlt (const_one_no_beat i hi j hj)

end Transmitter

namespace Transmitter

/-- Projection form of `run_handoff` for the active index. -/
lemma run_handoff_index (env : ℕ → ℕ) :
    (run env measure_limit).index = (evalPass (msOf env)).best_index := by
  rw [run_handoff]
  rfl

/-- Projection form of `run_handoff` for the opcode buffer. -/
lemma run_handoff_opcodes (env : ℕ → ℕ) (m : ℕ) :
    (run env measure_limit).opcodes m =
      if m = (evalPass (msOf env)).best_index then RET else NOP := by
  rw [run_handoff]
  rfl

/-! ### Claim theorems -/

/-- C1 counterexample: the claim says the evaluation pass selects the pair
of minimal diff over all offsets in the full range up to `measure_limit`;
on the concrete table `exMeas` the selected pair (0, 0) is beaten by the
never-scanned offset 78, so the selected BestMatch does not minimise the
diff over that cross product. -/
theorem c1_full_range_counterexample :
    ¬ (∀ i j, i < measure_limit → j < frequencies_n →
        diffAt exMeas (evalPass exMeas).best_index (evalPass exMeas).best_frequency ≤
          diffAt exMeas i j) := by
  intro hcl
  have h78 := hcl 78 0 (by decide) (by decide)
  rw [evalPass_exMeas] at h78
  have h2 : diffAt exMeas 0 0 ≤ diffAt exMeas 78 0 := h78
  rw [exMeas_zero_zero, exMeas_78_0] at h2
  norm_num at h2

/-- C1 amended: the evaluation pass scans only offsets in
`[0, measure_limit - 1)` — the last recorded measurement is never
evaluated.  Whenever some scanned candidate strictly beats the 558000
seed, the pass selects the first-encountered (offset ascending, then
target ascending) pair of minimal diff over that scanned range. -/
theorem c1_eval_first_min (ms : ℕ → ℕ)
    (h : ∃ i j, i < measure_limit - 1 ∧ j < frequencies_n ∧ diffAt ms i j < desired0) :
    (evalPass ms).best_index < measure_limit - 1 ∧
    (evalPass ms).best_frequency < frequencies_n ∧
    (evalPass ms).best_diff =
      diffAt ms (evalPass ms).best_index (evalPass ms).best_frequency ∧
    (∀ i j, i < measure_limit - 1 → j < frequencies_n →
      diffAt ms (evalPass ms).best_index (evalPass ms).best_frequency ≤ diffAt ms i j) ∧
    (∀ i j, i < measure_limit - 1 → j < frequencies_n →
      scanLt (i, j) ((evalPass ms).best_index, (evalPass ms).best_frequency) →
      diffAt ms (evalPass ms).best_index (evalPass ms).best_frequency < diffAt ms i j) := by
  rcases outer_char ms initBest (measure_limit - 1) with
    ⟨heq, hb⟩ | ⟨i, hi, j, hj, heq, hlt, hfirst, hmin⟩
  · obtain ⟨i, j, hi, hj, hd⟩ := h
    exact absurd hd (not_lt.mpr (hb i hi j hj))
  · have hE : evalPass ms = ⟨diffAt ms i j, i, j⟩ := heq
    rw [hE]
    refine ⟨hi, hj, rfl, ?_, ?_⟩
    · intro i' j' hi' hj'
      exact hmin i' hi' j' hj'
    · intro i' j' hi' hj' hsc
      exact hfirst i' j' hi' hj' hsc

/-- C1 witness: on the all-million table the pair (0, 0) beats the seed,
and the selected offset indeed lies in the scanned range. -/
theorem c1_eval_first_min_witness :
    (evalPass (fun _ => 1000000)).best_index < measure_limit - 1 :=
  (c1_eval_first_min (fun _ => 1000000) ⟨0, 0, by decide, by decide, const_mil_00⟩).1

/-- C2 counterexample: the best-difference accumulator is seeded with
558000 — not with the first table-adjusted entry 519975. -/
theorem c2_seed_counterexample :
    initBest.best_diff = 558000 ∧ frequencies.getD 0 0 = 519975 ∧
      initBest.best_diff ≠ frequencies.getD 0 0 := by
  refine ⟨rfl, freq0, ?_⟩
  rw [freq0]
  norm_num [initBest, desired0]

/-- C2 amended: the accumulator is seeded with the unadjusted desired
frequency 558000 (the raw table entry of index 3, before the
half-sample-rate shift), and a candidate pair is recorded only when its
diff is strictly smaller than the current best — hence strictly smaller
than that seed. -/
theorem c2_seed_amended :
    initBest.best_diff = desired0 ∧ desired0 = 558000 ∧
    rawFrequencies.getD 3 0 = desired0 ∧
    (∀ ms : ℕ → ℕ, evalPass ms = initBest ∨ (evalPass ms).best_diff < initBest.best_diff) := by
  refine ⟨rfl, rfl, by decide, ?_⟩
  intro ms
  rcases outer_char ms initBest (measure_limit - 1) with
    ⟨heq, _⟩ | ⟨i, _, j, _, heq, hlt, _, _⟩
  · exact Or.inl heq
  · right
    have hE : evalPass ms = ⟨diffAt ms i j, i, j⟩ := heq
    rw [hE]
    exact hlt

/-- C2 witness: instance of the amended statement at the all-ones
table. -/
theorem c2_seed_witness :
    evalPass (msOf fun _ => 1) = initBest ∨
      (evalPass (msOf fun _ => 1)).best_diff < initBest.best_diff :=
  c2_seed_amended.2.2.2 (msOf fun _ => 1)

/-- C3 counterexample: on the all-ones run no candidate beats the seed,
yet after the handoff the active offset is 0 — not the last measured
offset `measure_limit - 1 = 78`, whose slot holds the no-op word. -/
theorem c3_last_offset_counterexample :
    (∀ i, i < measure_limit - 1 → ∀ j, j < frequencies_n →
      ¬ diffAt (msOf fun _ => 1) i j < desired0) ∧
    (run (fun _ => 1) measure_limit).index = 0 ∧
    (run (fun _ => 1) measure_limit).opcodes (measure_limit - 1) = NOP ∧
    (run (fun _ => 1) measure_limit).opcodes 0 = RET ∧
    measure_limit - 1 ≠ 0 := by
  refine ⟨const_one_no_beat, ?_, ?_, ?_, by decide⟩
  · rw [run_handoff_index, evalPass_const_one]
    rfl
  · rw [run_handoff_opcodes, evalPass_const_one]
    rw [if_neg (by decide : ¬ measure_limit - 1 = initBest.best_index)]
  · rw [run_handoff_opcodes, evalPass_const_one,
      if_pos (show 0 = initBest.best_index from rfl)]

/-- C3 amended: when no candidate beats the seed, `best_index` keeps its
initial value 0, so the calibrator sets the active offset to 0 — it does
not keep the last offset tried. -/
theorem c3_no_winner_offset_zero (env : ℕ → ℕ)
    (h : ∀ i, i < measure_limit - 1 → ∀ j, j < frequencies_n →
      ¬ diffAt (msOf env) i j < desired0) :
    (run env measure_limit).index = 0 ∧
      (∀ m, (run env measure_limit).opcodes m = if m = 0 then RET else NOP) := by
  have hE : evalPass (msOf env) = initBest := by
    rcases outer_char (msOf env) initBest (measure_limit - 1) with
      ⟨heq, _⟩ | ⟨i, hi, j, hj, heq, hlt, _, _⟩
    · exact heq
    · exact absurd hlt (h i hi j hj)
  constructor
  · rw [run_handoff_index, hE]
    rfl
  · intro m
    rw [run_handoff_opcodes, hE]
    rfl

/-- C3 witness: the amended statement applied to the all-ones run. -/
theorem c3_no_winner_witness :
    (run (fun _ => 1) measure_limit).index = 0 :=
  (c3_no_winner_offset_zero (fun _ => 1) const_one_no_beat).1

/-- C4 amended: the achieved-frequency divisions are not guarded.  In the
division-checked model the evaluation pass reaches a zero-denominator
division exactly when some scanned measurement is zero, agrees with the
unchecked pass otherwise, and the TESTING division faults exactly when the
elapsed time is zero; the program itself has no fatal-fault path. -/
theorem c4_division_unguarded :
    (∀ ms : ℕ → ℕ, evalPassChecked ms = none ↔ ∃ i, i < measure_limit - 1 ∧ ms i = 0) ∧
    (∀ ms : ℕ → ℕ, (∀ i, i < measure_limit - 1 → ms i ≠ 0) →
      evalPassChecked ms = some (evalPass ms)) ∧
    (∀ p e : ℕ, achievedChecked p e = none ↔ e = 0) := by
  refine ⟨evalPassChecked_none_iff, evalPassChecked_some, ?_⟩
  intro p e
  unfold achievedChecked
  by_cases h : e = 0
  · rw [if_pos h]
    simp [h]
  · rw [if_neg h]
    simp [h]

/-- C4 counterexample: with a zero measurement the evaluation pass does
reach the division by zero (the checked model faults), and likewise the
TESTING division with a zero elapsed time — nothing guards it. -/
theorem c4_division_counterexample :
    evalPassChecked (fun _ => 0) = none ∧ achievedChecked 250000 0 = none := by
  constructor
  · exact (evalPassChecked_none_iff _).mpr ⟨0, by decide, rfl⟩
  · rfl

/-- C4 witness: on an all-ones table no division faults and the checked
pass computes the unchecked one. -/
theorem c4_division_witness :
    evalPassChecked (fun _ => 1) = some (evalPass (fun _ => 1)) :=
  c4_division_unguarded.2.1 (fun _ => 1) (fun _ _ => Nat.one_ne_zero)

/-- C5: the TESTING repeat count is the floor of
`0.5 x achievedFrequency / sampleRate` (the C cast truncates toward zero,
which is the floor for the nonnegative achieved frequency); concretely
558000 and 22050 give 12; and the run sets exactly this value at the
TESTING -> BROADCASTING step. -/
theorem c5_tuned_periods_floor :
    (∀ freq sr : ℚ, 0 ≤ freq → 0 < sr → tuned_periods freq sr = ⌊1 / 2 * freq / sr⌋) ∧
    tuned_periods 558000 (sample_rate : ℚ) = 12 ∧
    (∀ env : ℕ → ℕ, (run env (measure_limit + 1)).periods =
      (tuned_periods ((250000 : ℚ) * 1000000 / (env measure_limit : ℚ))
        (sample_rate : ℚ)).toNat) := by
  refine ⟨?_, ?_, ?_⟩
  · intro freq sr hf hs
    unfold tuned_periods cIntOfQ
    rw [if_pos (div_nonneg (mul_nonneg (by norm_num) hf) (le_of_lt hs))]
  · unfold tuned_periods cIntOfQ
    have harg : 1 / 2 * (558000 : ℚ) / (sample_rate : ℚ) = 620 / 49 := by
      norm_num [sample_rate]
    rw [harg, if_pos (by norm_num)]
    rw [Int.floor_eq_iff]
    constructor <;> norm_num
  · intro env
    rw [run_testing]
    rfl

/-- C5 witness: the floor form applied at the concrete achieved frequency
558000 and sample rate 22050. -/
theorem c5_tuned_periods_witness :
    tuned_periods 558000 (sample_rate : ℚ) =
      ⌊1 / 2 * (558000 : ℚ) / (sample_rate : ℚ)⌋ :=
  c5_tuned_periods_floor.1 558000 (sample_rate : ℚ) (by norm_num) (by norm_num [sample_rate])

/-- C6: the burst count during MEASURING is 100000 but the handoff sets
`periods = 250000`, so the TESTING burst count is larger — not strictly
smaller as the claim (and the code's own comment about 1000) says. -/
theorem c6_testing_periods_increase :
    ∀ env : ℕ → ℕ,
      (run env 0).periods = 100000 ∧
      (run env measure_limit).periods = 250000 ∧
      (run env 0).periods < (run env measure_limit).periods := by
  intro env
  have h0 : (run env 0).periods = 100000 := rfl
  have h1 : (run env measure_limit).periods = 250000 := by
    rw [run_handoff]
    rfl
  exact ⟨h0, h1, by rw [h0, h1]; norm_num⟩

/-- C7: the broadcast controller is in MEASURING exactly at boundaries
below `measure_limit`, in TESTING exactly at `measure_limit`, and in
BROADCASTING exactly afterwards — so TESTING and BROADCASTING are each
entered once, in that order, MEASURING is never re-entered, BROADCASTING
is terminal, and BROADCASTING is reached exactly when measuring completed
and TESTING ran once. -/
theorem c7_phase_trace :
    ∀ (env : ℕ → ℕ) (n : ℕ),
      ((run env n).ready_state = MEASURING ↔ n < measure_limit) ∧
      ((run env n).ready_state = TESTING ↔ n = measure_limit) ∧
      ((run env n).ready_state = BROADCASTING ↔ measure_limit < n) := by
  intro env n
  rcases Nat.lt_trichotomy n measure_limit with h | h | h
  · rw [run_measuring env n h]
    have hm : (mstateM env n).ready_state = MEASURING := rfl
    exact ⟨iff_of_true hm h, iff_of_false (by rw [hm]; decide) (by omega),
      iff_of_false (by rw [hm]; decide) (by omega)⟩
  · subst h
    rw [run_handoff]
    have ht : (hstate env).ready_state = TESTING := rfl
    exact ⟨iff_of_false (by rw [ht]; decide) (by omega), iff_of_true ht rfl,
      iff_of_false (by rw [ht]; decide) (by omega)⟩
  · obtain ⟨k, rfl⟩ : ∃ k, n = measure_limit + 1 + k := ⟨n - (measure_limit + 1), by omega⟩
    rw [run_broadcast]
    have hb : (bstate env).ready_state = BROADCASTING := rfl
    exact ⟨iff_of_false (by rw [hb]; decide) (by omega), iff_of_false (by rw [hb]; decide) (by omega),
      iff_of_true hb (by omega)⟩

/-- C7 witness: the initial boundary is in MEASURING. -/
theorem c7_phase_witness : (run (fun _ => 1) 0).ready_state = MEASURING :=
  (c7_phase_trace (fun _ => 1) 0).1.mpr (by decide)

/-- C8: at every loop boundary the opcode buffer holds the return word in
exactly the slot `aIdx env n` (a valid slot, all others no-op); that
active slot starts at 0, advances by exactly one per measuring iteration,
and from the handoff on equals the evaluation pass's winning offset. -/
theorem c8_opcode_invariant :
    ∀ env : ℕ → ℕ,
      (∀ n, aIdx env n < MAX_OPCODES) ∧
      (∀ n m, (run env n).opcodes m = if m = aIdx env n then RET else NOP) ∧
      aIdx env 0 = 0 ∧
      (∀ k, k + 1 < measure_limit → aIdx env (k + 1) = aIdx env k + 1) ∧
      (∀ k, measure_limit ≤ k → aIdx env k = (evalPass (msOf env)).best_index) := by
  intro env
  have hml : measure_limit = 79 := rfl
  have hmo : MAX_OPCODES = 80 := rfl
  refine ⟨?_, ?_, ?_, ?_, ?_⟩
  · intro n
    unfold aIdx
    by_cases h : n < measure_limit
    · rw [if_pos h, hmo]
      rw [hml] at h
      omega
    · rw [if_neg h]
      exact evalPass_best_index_lt _
  · intro n m
    rcases Nat.lt_trichotomy n measure_limit with h | h | h
    · rw [run_measuring env n h]
      unfold aIdx
      rw [if_pos h]
      rfl
    · subst h
      rw [run_handoff]
      unfold aIdx
      rw [if_neg (lt_irrefl _)]
      rfl
    · obtain ⟨k, rfl⟩ : ∃ k, n = measure_limit + 1 + k := ⟨n - (measure_limit + 1), by omega⟩
      rw [run_broadcast]
      unfold aIdx
      rw [if_neg (show ¬ measure_limit + 1 + k < measure_limit by omega)]
      rfl
  · unfold aIdx
    rw [if_pos (by rw [hml]; omega)]
  · intro k hk
    unfold aIdx
    rw [if_pos hk, if_pos (by omega : k < measure_limit)]
  · intro k hk
    unfold aIdx
    rw [if_neg (by omega)]

/-- C8 witness: during measurement the active slot advances by one. -/
theorem c8_opcode_witness : aIdx (fun _ => 1) 1 = aIdx (fun _ => 1) 0 + 1 :=
  (c8_opcode_invariant (fun _ => 1)).2.2.2.1 0 (by decide)

/-- C9: the ADC machine keeps `read_state` in its four states, performs at
most one transition per iteration and only along the cyclic order
START_CONVERSION -> WAIT_ACTIVE -> WAIT_COMPLETE -> LATCH_VALUE -> ...,
changes the latched value only in LATCH_VALUE (where it latches the
conversion result and returns to START_CONVERSION), and the latched value
is 0 until the first pass through LATCH_VALUE. -/
theorem c9_adc_machine :
    ∀ (script : ℕ → AdcIn) (n : ℕ),
      ((adcRun script n).read_state < 4) ∧
      (adcRun script (n + 1) = adcRun script n ∨
        (adcRun script (n + 1)).read_state = nextRS ((adcRun script n).read_state)) ∧
      ((adcRun script n).read_state ≠ 3 →
        (adcRun script (n + 1)).adc_value = (adcRun script n).adc_value) ∧
      ((adcRun script n).read_state = 3 →
        (adcRun script (n + 1)).adc_value = (script n).value ∧
          (adcRun script (n + 1)).read_state = 0) ∧
      ((∀ m, m < n → (adcRun script m).read_state ≠ 3) →
        (adcRun script n).adc_value = 0) := by
  intro script n
  exact ⟨adc_rs_lt script n, adcStep_cases (script n) (adcRun script n),
    adcStep_value (script n) (adcRun script n), adcStep_latch (script n) (adcRun script n),
    adc_value_zero script n⟩

/-- C9 witness: under the constant script the value is still 0 after two
iterations (LATCH_VALUE not yet reached). -/
theorem c9_adc_witness : (adcRun cscript 2).adc_value = 0 :=
  (c9_adc_machine cscript 2).2.2.2.2 (by decide)

/-- C10: on every run, at the handoff the measurement cells recorded are
exactly those of indices below `measure_limit`; the evaluation pass reads
only cells below `measure_limit - 1` (it is insensitive to all others);
but the final frequency computation of main.cpp line 206 reads the cell at
index `measure_limit`, which was never written — the model's `freq`
register is therefore undefined there. -/
theorem c10_measurement_reads :
    ∀ env : ℕ → ℕ,
      (∀ i, i < measure_limit → (run env measure_limit).measurements i = some (env i)) ∧
      (∀ i, measure_limit ≤ i → (run env measure_limit).measurements i = none) ∧
      (run env measure_limit).freqReg = none ∧
      (∀ ms1 ms2 : ℕ → ℕ, (∀ i, i < measure_limit - 1 → ms1 i = ms2 i) →
        evalPass ms1 = evalPass ms2) := by
  intro env
  refine ⟨?_, ?_, ?_, fun ms1 ms2 h => evalPass_congr h⟩
  · intro i hi
    rw [run_handoff]
    show (if i < measure_limit then some (env i) else none) = some (env i)
    rw [if_pos hi]
  · intro i hi
    rw [run_handoff]
    show (if i < measure_limit then some (env i) else none) = none
    rw [if_neg (not_lt.mpr hi)]
  · rw [run_handoff]
    rfl

/-- C10 witness: the first recorded cell holds the first elapsed time. -/
theorem c10_measurement_witness :
    (run (fun _ => 5) measure_limit).measurements 0 = some 5 :=
  (c10_measurement_reads (fun _ => 5)).1 0 (by decide)

end Transmitter
